import Mathlib

/-!
# Verification of the InvestorStack grid-trading engine

A shallow embedding, in Lean 4, of the grid reconciliation engine of the
InvestorStack bot (Python sources under `backend/engine/`), together with
proofs and refutations of a fixed list of specification claims.

Conventions of the embedding:

* Python `float` prices and sizes are modelled as exact rationals (`ℚ`);
  the spec itself mandates decimal semantics ("implementers MUST use
  fixed-precision or rational arithmetic").  Python's `round(x, 8)` is
  modelled as exact decimal rounding to 8 places (`round8` below).  The
  midpoint convention of Python's `round` (half to even) differs from
  Mathlib's `round` (half up) only at exact midpoints, which none of the
  theorems below depend on.
* Order books and dictionaries (`self.active_orders`, `self.zone_map`) are
  modelled as association lists; Python dict assignment is `setOrder`
  (replace the entry in place if the key exists, append otherwise), which
  preserves insertion order like a Python dict.
* `async` adapter calls are modelled by passing their results in as
  explicit arguments: the market mid (`fetch_ticker`), the open-orders
  snapshot (`fetch_open_orders`), and the venue's reply to each
  `place_limit_order` call (`resp : Nat → Option Nat`, indexed by the
  ordinal of the call within the operation; `none` models a raised
  exception, `some oid` a successful placement with that venue order id).
  Cancellation outcomes are `cancelOk : Nat → Bool` keyed by order id.
* Python exceptions that escape a method are modelled with `Except`;
  exceptions that the source catches and logs are absorbed exactly where
  the corresponding `try/except` sits in the source.
-/

namespace InvestorStack

/-- Python's `round(x, 8)` on the decimal reading of a float: round the
value to 8 decimal places.  Used by `GridCalculator.calculate_fixed_grid`
(`round(level, 8)`). -/
def round8 (q : ℚ) : ℚ := (round (q * 100000000) : ℤ) / 100000000

/-- Order side, the `Literal["buy", "sell", "skip"]` of
`GridCalculator.determine_side`.  Stored orders only ever hold `buy` or
`sell`; `skip` is the calculator's "no order at this level" answer. -/
inductive OrderSide where
  | buy
  | sell
  | skip
deriving DecidableEq, Repr

/-- Order status strings of the engine: `'open'`, `'filled'`,
`'cancelled'`, `'unknown'` (the source never stores `'intended'`).
`open` is a Lean keyword, hence the constructor name `opened`. -/
inductive OrderStatus where
  | opened
  | filled
  | cancelled
  | unknown
deriving DecidableEq, Repr

/-- `GridCalculator.calculate_fixed_grid`.  Raises `ValueError` for
`total_levels < 2` or `upper_bound <= lower_bound`; otherwise returns
`[round(lower + i*step, 8) for i in range(total_levels)]` with
`step = (upper - lower) / (total_levels - 1)`. -/
def calculate_fixed_grid (lower_bound upper_bound : ℚ) (total_levels : ℕ) :
    Except String (List ℚ) :=
  if total_levels < 2 then .error "Total levels must be at least 2"
  else if upper_bound ≤ lower_bound then
    .error "Upper bound must be greater than lower bound"
  else
    let step := (upper_bound - lower_bound) / ((total_levels : ℚ) - 1)
    .ok ((List.range total_levels).map
      (fun (i : ℕ) => round8 (lower_bound + (i : ℚ) * step)))

/-- `GridCalculator.determine_side`: compare a level price against the mid
price with the absolute tolerance `0.00001`. -/
def determine_side (price mid_price : ℚ) : OrderSide :=
  let tolerance : ℚ := 1 / 100000
  if price < mid_price - tolerance then .buy
  else if price > mid_price + tolerance then .sell
  else .skip

/-- One row of `ExchangeValidator.REQUIREMENTS`. -/
structure SymbolReqs where
  min_size : ℚ
  min_value : ℚ
  size_step : ℚ
  price_tick : ℚ
deriving DecidableEq, Repr

/-- The `ExchangeValidator.REQUIREMENTS` table; `none` models both an
unknown exchange and an unknown symbol (the validator is permissive for
either). -/
def REQUIREMENTS (exchange symbol : String) : Option SymbolReqs :=
  if exchange = "okx" then
    if symbol = "BTC/USDT" then some ⟨1/100000, 5, 1/100000000, 1/10⟩
    else if symbol = "ETH/USDT" then some ⟨1/1000, 5, 1/10000, 1/100⟩
    else if symbol = "SOL/USDT" then some ⟨1/100, 5, 1/100, 1/1000⟩
    else none
  else if exchange = "bitkub" then
    if symbol = "THB_BTC" then some ⟨3/1000000, 10, 1/100000000, 1/100⟩
    else if symbol = "THB_ETH" then some ⟨5/1000, 10, 1/100000000, 1/100⟩
    else none
  else none

/-- `ExchangeValidator.validate_order` (the boolean part of the returned
`(is_valid, error_message)` pair). -/
def validate_order (exchange symbol : String) (size price : ℚ) : Bool :=
  match REQUIREMENTS exchange symbol with
  | none => true
  | some reqs =>
    if size < reqs.min_size then false
    else if size * price < reqs.min_value then false
    else if 0 < reqs.size_step ∧
        reqs.size_step * (1/1000) < |size - (round (size / reqs.size_step) : ℤ) * reqs.size_step|
      then false
    else if 0 < reqs.price_tick ∧
        reqs.price_tick * (1/1000) < |price - (round (price / reqs.price_tick) : ℤ) * reqs.price_tick|
      then false
    else true

/-- `ExchangeValidator.round_size`: snap a size to the symbol's size step. -/
def round_size (exchange symbol : String) (size : ℚ) : ℚ :=
  match REQUIREMENTS exchange symbol with
  | none => size
  | some reqs =>
    if 0 < reqs.size_step then (round (size / reqs.size_step) : ℤ) * reqs.size_step
    else size

/-- `ExchangeValidator.round_price`: snap a price to the symbol's tick. -/
def round_price (exchange symbol : String) (price : ℚ) : ℚ :=
  match REQUIREMENTS exchange symbol with
  | none => price
  | some reqs =>
    if 0 < reqs.price_tick then (round (price / reqs.price_tick) : ℤ) * reqs.price_tick
    else price

/-! ## Engine data model

`GridEngine` state, with the adapter boundary made explicit. -/

/-- Absolute value on ℚ written with an `if`, so that concrete engine runs
reduce inside the kernel.  Equal to `|q|` (`absQ_eq_abs` below). -/
def absQ (q : ℚ) : ℚ := if q < 0 then -q else q

/-- A value of the per-order dicts the engine keeps in
`self.active_orders` (`level_index`, `zone_id`, `side`, `price`, `size`,
`status`). -/
structure LiveOrder where
  level_index : Nat
  zone_id : Nat
  side : OrderSide
  price : ℚ
  size : ℚ
  status : OrderStatus
deriving DecidableEq, Repr

/-- An order as returned by an adapter's `fetch_open_orders` (the fields
the engine reads: `id`, `side`, `price`, `amount`). -/
structure ExOrder where
  id : Nat
  side : OrderSide
  price : ℚ
  amount : ℚ
deriving DecidableEq, Repr

/-- A value of the engine's `self.zone_map` dict (the `price` field of the
source dict is never read back and is omitted). -/
structure ZoneInfo where
  zone_id : Nat
  enabled : Bool
deriving DecidableEq, Repr

/-- The mutable state of a `GridEngine`, together with the config fields
the modelled methods read (`config.exchange`, `config.symbol`,
`config.position_size`). -/
structure EngineState where
  levels : List ℚ
  zone_map : List (Nat × ZoneInfo)
  active_orders : List (Nat × LiveOrder)
  running : Bool
  exchange : String
  symbol : String
  position_size : ℚ
deriving DecidableEq, Repr

/-- `i in self.zone_map and not self.zone_map[i]['enabled']` negated: a
level is enabled when absent from the zone map or mapped to an enabled
zone. -/
def zone_enabled (s : EngineState) (i : Nat) : Bool :=
  match s.zone_map.lookup i with
  | some zi => zi.enabled
  | none => true

/-- `self.zone_map.get(i, {}).get('zone_id', 0)`. -/
def zone_id_of (s : EngineState) (i : Nat) : Nat :=
  match s.zone_map.lookup i with
  | some zi => zi.zone_id
  | none => 0

/-- Python dict assignment `d[k] = v` on an association list: replace the
entry in place if the key is present, else append. -/
def setOrder : List (Nat × LiveOrder) → Nat → LiveOrder → List (Nat × LiveOrder)
  | [], k, v => [(k, v)]
  | e :: rest, k, v => if e.1 = k then (k, v) :: rest else e :: setOrder rest k v

/-- `self.active_orders[k]['status'] = st`. -/
def markStatus (l : List (Nat × LiveOrder)) (k : Nat) (st : OrderStatus) :
    List (Nat × LiveOrder) :=
  l.map (fun e => if e.1 = k then (e.1, { e.2 with status := st }) else e)

/-- The closest-grid-level loop of `_sync_with_exchange_orders`:
`min_diff` starts at infinity, strict `<` keeps the earliest level on
ties; `none` only when the level list is empty. -/
def closest_level_aux (price : ℚ) : List ℚ → Nat → Option (Nat × ℚ) → Option (Nat × ℚ)
  | [], _, best => best
  | p :: rest, i, best =>
    let diff := absQ (price - p)
    match best with
    | none => closest_level_aux price rest (i + 1) (some (i, diff))
    | some (bi, bd) =>
      if diff < bd then closest_level_aux price rest (i + 1) (some (i, diff))
      else closest_level_aux price rest (i + 1) (some (bi, bd))

def closest_level (levels : List ℚ) (price : ℚ) : Option Nat :=
  (closest_level_aux price levels 0 none).map Prod.fst

/-- Adoption of one exchange order in `_sync_with_exchange_orders`: snap
to the closest level and store it as an `open` order (dict assignment by
venue order id). -/
def adopt_step (s : EngineState) (acc : List (Nat × LiveOrder)) (o : ExOrder) :
    List (Nat × LiveOrder) :=
  match closest_level s.levels o.price with
  | none => acc
  | some i =>
    setOrder acc o.id
      { level_index := i, zone_id := zone_id_of s i, side := o.side,
        price := o.price, size := o.amount, status := .opened }

/-- `GridEngine._sync_with_exchange_orders`: if the venue returns an empty
list while manually synced orders are tracked, keep them; otherwise clear
local tracking and adopt every order of the snapshot. -/
def sync_with_exchange_orders (s : EngineState) (open_orders : List ExOrder) :
    EngineState :=
  if open_orders.length = 0 ∧ 0 < s.active_orders.length then s
  else { s with active_orders := open_orders.foldl (adopt_step s) [] }

/-- The `'open'`-status level indices of a tracked-order list: the
`existing_levels` set of `_place_grid_orders`, and the index list whose
`Nodup`-ness is the exactly-one-open-per-level property. -/
def openLevels (l : List (Nat × LiveOrder)) : List Nat :=
  (l.filter (fun e => decide (e.2.status = .opened))).map (fun e => e.2.level_index)

/-- The per-level body of the placement loop of `_place_grid_orders`:
skip levels that already carry an open order, disabled zones, `skip`
polarity and validator failures; otherwise call `place_limit_order`
(the venue reply is `resp` at the running call counter; `none` is a
raised exception, caught and logged by the source loop). -/
def place_step (s : EngineState) (mid : ℚ) (resp : Nat → Option Nat) (ex : List Nat)
    (acc : List (Nat × LiveOrder) × Nat) (iv : Nat × ℚ) :
    List (Nat × LiveOrder) × Nat :=
  if iv.1 ∈ ex then acc
  else if zone_enabled s iv.1 = false then acc
  else
    match determine_side iv.2 mid with
    | .skip => acc
    | side =>
      if validate_order s.exchange s.symbol s.position_size iv.2 then
        match resp acc.2 with
        | none => (acc.1, acc.2 + 1)
        | some oid =>
          (setOrder acc.1 oid
            { level_index := iv.1, zone_id := zone_id_of s iv.1, side := side,
              price := iv.2, size := s.position_size, status := .opened }, acc.2 + 1)
      else acc

/-- The placement loop of `_place_grid_orders` (everything after the
early return), at market mid `mid`.  The stored entry keeps the
unrounded `level_price` and `position_size`, as in the source; the
rounded values only go out on the wire. -/
def place_grid_core (s : EngineState) (mid : ℚ) (resp : Nat → Option Nat) :
    EngineState :=
  { s with active_orders :=
      (s.levels.enum.foldl (place_step s mid resp (openLevels s.active_orders))
        (s.active_orders, 0)).1 }

/-- `GridEngine._place_grid_orders`: sync first; if any orders are
tracked, keep them and place nothing; otherwise fetch the ticker
(`ticker = none` models a raised exception, which propagates to `start`)
and run the placement loop.  The boolean is `false` exactly when the
method raises. -/
def place_grid_orders (s : EngineState) (open_orders : List ExOrder)
    (ticker : Option ℚ) (resp : Nat → Option Nat) : EngineState × Bool :=
  let s1 := sync_with_exchange_orders s open_orders
  if 0 < s1.active_orders.length then (s1, true)
  else
    match ticker with
    | none => (s1, false)
    | some mid => (place_grid_core s1 mid resp, true)

/-- `GridEngine.start`: a no-op when already running; otherwise set
`running` and place the initial grid.  On failure the source resets
`self.running = False` and re-raises. -/
def engine_start (s : EngineState) (open_orders : List ExOrder)
    (ticker : Option ℚ) (resp : Nat → Option Nat) : EngineState × Bool :=
  if s.running then (s, true)
  else
    let r := place_grid_orders { s with running := true } open_orders ticker resp
    if r.2 then (r.1, true) else ({ r.1 with running := false }, false)

/-- `GridEngine._cancel_all_orders`: best-effort cancels on the venue,
then `self.active_orders.clear()` — the net state effect is the clear. -/
def cancel_all_orders (s : EngineState) : EngineState :=
  { s with active_orders := [] }

/-- `GridEngine.stop`: a no-op when not running; otherwise clear the
running flag and cancel everything. -/
def engine_stop (s : EngineState) : EngineState :=
  if s.running then cancel_all_orders { s with running := false } else s

/-- One order placement issued to the venue (the argument tuple of a
`place_limit_order` call made by `_replace_order`). -/
structure Placement where
  level_index : Nat
  side : OrderSide
  price : ℚ
  size : ℚ
deriving DecidableEq, Repr

/-- `GridEngine._replace_order` on the current tracked-order list `ao`
(the static fields — levels, zones, running flag, config — live in `s`
and are not mutated during a tick).  Returns the updated list and the
placement issued, if any.  Guards in source order: `self.running`, zone
enabled, then inside `try`: level price lookup, polarity, placement
(`resp = none` models a raised/failed call, caught and logged). -/
def replace_order (s : EngineState) (ao : List (Nat × LiveOrder)) (level_index : Nat)
    (mid : ℚ) (resp : Option Nat) : List (Nat × LiveOrder) × Option Placement :=
  if s.running = false then (ao, none)
  else if zone_enabled s level_index = false then (ao, none)
  else if s.levels.length ≤ level_index then (ao, none)
  else
    let level_price := s.levels.getD level_index 0
    match determine_side level_price mid with
    | .skip => (ao, none)
    | side =>
      match resp with
      | none => (ao, none)
      | some oid =>
        (setOrder ao oid
          { level_index := level_index, zone_id := zone_id_of s level_index,
            side := side, price := level_price, size := s.position_size,
            status := .opened },
         some { level_index := level_index, side := side, price := level_price,
                size := s.position_size })

/-- The fill-detection body of `_monitor_orders` for one snapshot entry:
a tracked order that is `open` locally but missing from the venue
snapshot is marked `filled` and `_replace_order` runs immediately for its
level.  `mids`/`resp` are the ticker and placement replies of the
successive `_replace_order` calls of this tick, indexed by a counter. -/
def monitor_step (s : EngineState) (ids : List Nat) (mids : Nat → ℚ)
    (resp : Nat → Option Nat)
    (acc : List (Nat × LiveOrder) × Nat × List Placement) (e : Nat × LiveOrder) :
    List (Nat × LiveOrder) × Nat × List Placement :=
  if e.1 ∉ ids ∧ e.2.status = .opened then
    let ao1 := markStatus acc.1 e.1 .filled
    let r := replace_order s ao1 e.2.level_index (mids acc.2.1) (resp acc.2.1)
    (r.1, acc.2.1 + 1, acc.2.2 ++ r.2.toList)
  else acc

/-- One reconciliation tick of `GridEngine._monitor_orders`: fetch the
open-orders snapshot; if it is empty while orders are tracked, skip the
tick (API-outage guard); if it is non-empty, run fill detection over a
snapshot of `self.active_orders.items()`.  Returns the new state and the
placements issued during the tick. -/
def monitor_tick (s : EngineState) (open_orders : List ExOrder) (mids : Nat → ℚ)
    (resp : Nat → Option Nat) : EngineState × List Placement :=
  if open_orders.length = 0 ∧ 0 < s.active_orders.length then (s, [])
  else if 0 < open_orders.length then
    let r := s.active_orders.foldl
      (monitor_step s (open_orders.map (·.id)) mids resp) (s.active_orders, 0, [])
    ({ s with active_orders := r.1 }, r.2.2)
  else (s, [])

/-- Whether some zone-map entry maps level `i` to zone `zid` (the inner
match of `toggle_zone`'s iteration over `self.zone_map.items()`). -/
def level_in_zone (s : EngineState) (zid : Nat) (i : Nat) : Bool :=
  s.zone_map.any (fun e => decide (e.1 = i ∧ e.2.zone_id = zid))

/-- `GridEngine.toggle_zone`: flip `enabled` on every zone-map entry of
the zone; when disabling, cancel each open order at an affected level
(per-order `try/except`: a failed cancel leaves the order untouched). -/
def toggle_zone (s : EngineState) (zid : Nat) (enabled : Bool)
    (cancelOk : Nat → Bool) : EngineState :=
  let ao :=
    if enabled then s.active_orders
    else
      s.active_orders.map fun e =>
        if e.2.status = .opened ∧ level_in_zone s zid e.2.level_index ∧ cancelOk e.1
        then (e.1, { e.2 with status := .cancelled }) else e
  { s with
    zone_map := s.zone_map.map fun e =>
      if e.2.zone_id = zid then (e.1, { e.2 with enabled := enabled }) else e,
    active_orders := ao }

/-- `GridEngine.cancel_order_at_level`: `ValueError` on a bad index;
otherwise cancel the first tracked open order at the level (a failed
venue cancel re-raises), returning `False` when there is none. -/
def cancel_order_at_level (s : EngineState) (cancelOk : Nat → Bool)
    (level_index : Nat) : Except String (Bool × EngineState) :=
  if s.levels.length ≤ level_index then
    .error ("Invalid level index: " ++ toString level_index)
  else
    match s.active_orders.find?
        (fun e => decide (e.2.level_index = level_index ∧ e.2.status = .opened)) with
    | none => .ok (false, s)
    | some e =>
      if cancelOk e.1 then
        .ok (true, { s with active_orders := markStatus s.active_orders e.1 .cancelled })
      else .error "Failed to cancel order"

/-- Whether some tracked order at level `i` has status `open` (the
duplicate check of `enable_order_at_level`). -/
def has_open_at (l : List (Nat × LiveOrder)) (i : Nat) : Bool :=
  l.any (fun e => decide (e.2.level_index = i ∧ e.2.status = .opened))

/-- `GridEngine.enable_order_at_level`: `ValueError` on a bad index or a
disabled zone; `False` when an open order already sits at the level;
otherwise place one order there (`skip` polarity and placement failures
raise). -/
def enable_order_at_level (s : EngineState) (mid : ℚ) (resp : Option Nat)
    (level_index : Nat) : Except String (Bool × EngineState) :=
  if s.levels.length ≤ level_index then
    .error ("Invalid level index: " ++ toString level_index)
  else if zone_enabled s level_index = false then
    .error ("Zone for level " ++ toString level_index ++ " is disabled")
  else if has_open_at s.active_orders level_index then .ok (false, s)
  else
    let level_price := s.levels.getD level_index 0
    match determine_side level_price mid with
    | .skip => .error ("Cannot place order at mid price level " ++ toString level_index)
    | side =>
      match resp with
      | none => .error "Failed to place order"
      | some oid =>
        .ok (true, { s with active_orders := (setOrder s.active_orders oid
          { level_index := level_index, zone_id := zone_id_of s level_index,
            side := side, price := level_price, size := s.position_size,
            status := .opened }) })

/-! ## Service layer (`BotService`) -/

/-- The `{success, message}` dict returned by every `BotService` call. -/
structure ServiceResult where
  success : Bool
  message : String
deriving DecidableEq, Repr

/-- `BotService.start_bot`: confirmation and config guards, then
`engine.start()`; any exception becomes `{success: False, message:
str(e)}` (the message text is the exception's and is not modelled
further), otherwise `{success: True, "Bot started successfully"}`. -/
def start_bot (s : EngineState) (hasConfig confirm : Bool)
    (open_orders : List ExOrder) (ticker : Option ℚ) (resp : Nat → Option Nat) :
    EngineState × ServiceResult :=
  if confirm = false then (s, ⟨false, "Confirmation required"⟩)
  else if hasConfig = false then (s, ⟨false, "No configuration loaded"⟩)
  else
    let r := engine_start s open_orders ticker resp
    if r.2 then (r.1, ⟨true, "Bot started successfully"⟩)
    else (r.1, ⟨false, "Failed to start bot"⟩)

/-- `BotService.cancel_order_at_level`: delegate to the engine; the
engine's boolean result is discarded and any non-exception outcome is
reported as success. -/
def service_cancel_order_at_level (s : EngineState) (cancelOk : Nat → Bool)
    (level_index : Nat) : EngineState × ServiceResult :=
  match cancel_order_at_level s cancelOk level_index with
  | .ok r => (r.2, ⟨true, "Order at level " ++ toString level_index ++ " cancelled"⟩)
  | .error e => (s, ⟨false, e⟩)

/-! ## Venue-A (Bitkub) adapter -/

/-- The JSON body `{sym, amt, rat, typ}` of a Bitkub
`place-bid`/`place-ask` request. -/
structure BitkubOrderParams where
  sym : String
  amt : ℚ
  rat : ℚ
  typ : String
deriving DecidableEq, Repr

/-- The request-construction part of `BitkubExchange.place_limit_order`:
symbol inverted to the venue convention, and the amount fixed at 100 THB
for buys and `100 / price` base units for sells (the source comments:
"Use fixed 100 THB for buy orders" / "Calculate BTC amount from 100 THB
worth"). -/
def bitkub_place_params (symbol : String) (side : OrderSide) (price amount : ℚ) :
    BitkubOrderParams :=
  { sym := if symbol = "THB_BTC" then "BTC_THB" else symbol
  , amt := if side = .buy then 100 else 100 / price
  , rat := price
  , typ := "limit" }

/-- The endpoint chosen by `BitkubExchange.place_limit_order`. -/
def bitkub_place_endpoint (side : OrderSide) : String :=
  if side = .buy then "/api/v3/market/place-bid" else "/api/v3/market/place-ask"

/-- The side-lookup loop of `BitkubExchange.cancel_order` over its own
`fetch_open_orders` listing (first match wins). -/
def bitkub_lookup_side : List ExOrder → Nat → Option OrderSide
  | [], _ => none
  | o :: rest, oid => if o.id = oid then some o.side else bitkub_lookup_side rest oid

/-- `BitkubExchange.cancel_order` against a venue that accepts a
cancellation attempt for this order iff `accepts side` is true: look the
side up in the open-orders listing and cancel with it (a venue error
raises); if the order is not listed, try `sell` then `buy` and succeed on
the first accepted attempt.  The returned value is the side the
successful cancellation was sent with. -/
def bitkub_cancel_order (open_orders : List ExOrder) (accepts : OrderSide → Bool)
    (oid : Nat) : Except String OrderSide :=
  match bitkub_lookup_side open_orders oid with
  | some sd => if accepts sd then .ok sd else .error "Failed to cancel order"
  | none =>
    if accepts .sell then .ok .sell
    else if accepts .buy then .ok .buy
    else .error "Failed to cancel order with any side"

/-! ## Reachability

States of the engine after `initialize` (empty tracked-order map)
followed by any sequence of the modelled operations, with the venue
replies universally quantified.  `Reach` is the faithful relation;
`ReachGood` additionally restricts every open-orders snapshot handed to
`_sync_with_exchange_orders` to contain at most one order per snapped
grid level. -/

/-- The snapshot proviso of the amended exactly-one-open claim: no two
orders of the snapshot snap to the same grid level. -/
def GoodSnapshot (levels : List ℚ) (open_orders : List ExOrder) : Prop :=
  (open_orders.filterMap (fun o => closest_level levels o.price)).Nodup

instance (levels : List ℚ) (open_orders : List ExOrder) :
    Decidable (GoodSnapshot levels open_orders) := by
  unfold GoodSnapshot
  infer_instance

inductive Reach : EngineState → Prop where
  | init (s : EngineState) (h : s.active_orders = []) : Reach s
  | sync (s : EngineState) (oo : List ExOrder) (hs : Reach s) :
      Reach (sync_with_exchange_orders s oo)
  | placeGrid (s : EngineState) (oo : List ExOrder) (ticker : Option ℚ)
      (resp : Nat → Option Nat) (hs : Reach s) :
      Reach (place_grid_orders s oo ticker resp).1
  | start (s : EngineState) (oo : List ExOrder) (ticker : Option ℚ)
      (resp : Nat → Option Nat) (hs : Reach s) :
      Reach (engine_start s oo ticker resp).1
  | monitor (s : EngineState) (oo : List ExOrder) (mids : Nat → ℚ)
      (resp : Nat → Option Nat) (hs : Reach s) :
      Reach (monitor_tick s oo mids resp).1
  | toggleZone (s : EngineState) (zid : Nat) (enabled : Bool)
      (cancelOk : Nat → Bool) (hs : Reach s) :
      Reach (toggle_zone s zid enabled cancelOk)
  | cancelLevel (s : EngineState) (cancelOk : Nat → Bool) (i : Nat) (b : Bool)
      (s' : EngineState) (h : cancel_order_at_level s cancelOk i = .ok (b, s'))
      (hs : Reach s) : Reach s'
  | enableLevel (s : EngineState) (mid : ℚ) (resp : Option Nat) (i : Nat) (b : Bool)
      (s' : EngineState) (h : enable_order_at_level s mid resp i = .ok (b, s'))
      (hs : Reach s) : Reach s'
  | stop (s : EngineState) (hs : Reach s) : Reach (engine_stop s)
  | cancelAll (s : EngineState) (hs : Reach s) : Reach (cancel_all_orders s)

inductive ReachGood : EngineState → Prop where
  | init (s : EngineState) (h : s.active_orders = []) : ReachGood s
  | sync (s : EngineState) (oo : List ExOrder) (hg : GoodSnapshot s.levels oo)
      (hs : ReachGood s) : ReachGood (sync_with_exchange_orders s oo)
  | placeGrid (s : EngineState) (oo : List ExOrder) (ticker : Option ℚ)
      (resp : Nat → Option Nat) (hg : GoodSnapshot s.levels oo) (hs : ReachGood s) :
      ReachGood (place_grid_orders s oo ticker resp).1
  | start (s : EngineState) (oo : List ExOrder) (ticker : Option ℚ)
      (resp : Nat → Option Nat) (hg : GoodSnapshot s.levels oo) (hs : ReachGood s) :
      ReachGood (engine_start s oo ticker resp).1
  | monitor (s : EngineState) (oo : List ExOrder) (mids : Nat → ℚ)
      (resp : Nat → Option Nat) (hs : ReachGood s) :
      ReachGood (monitor_tick s oo mids resp).1
  | toggleZone (s : EngineState) (zid : Nat) (enabled : Bool)
      (cancelOk : Nat → Bool) (hs : ReachGood s) :
      ReachGood (toggle_zone s zid enabled cancelOk)
  | cancelLevel (s : EngineState) (cancelOk : Nat → Bool) (i : Nat) (b : Bool)
      (s' : EngineState) (h : cancel_order_at_level s cancelOk i = .ok (b, s'))
      (hs : ReachGood s) : ReachGood s'
  | enableLevel (s : EngineState) (mid : ℚ) (resp : Option Nat) (i : Nat) (b : Bool)
      (s' : EngineState) (h : enable_order_at_level s mid resp i = .ok (b, s'))
      (hs : ReachGood s) : ReachGood s'
  | stop (s : EngineState) (hs : ReachGood s) : ReachGood (engine_stop s)
  | cancelAll (s : EngineState) (hs : ReachGood s) : ReachGood (cancel_all_orders s)

/-- Eight-decimal representability: the grid-band bounds for which
`round8` is exact. -/
def Dec8 (q : ℚ) : Prop := (q * 100000000).den = 1

instance (q : ℚ) : Decidable (Dec8 q) := by unfold Dec8; infer_instance

/-! # Theorems -/

theorem absQ_eq_abs (q : ℚ) : absQ q = |q| := by
  rw [absQ]
  split_ifs with h
  · exact (abs_of_neg h).symm
  · exact (abs_of_nonneg (not_lt.1 h)).symm

/-! ## Decimal rounding lemmas -/

theorem round8_mono {x y : ℚ} (h : x ≤ y) : round8 x ≤ round8 y := by
  unfold round8
  have hr : round (x * 100000000) ≤ round (y * 100000000) := by
    rw [round_eq, round_eq]
    exact Int.floor_mono (by linarith)
  have hr' : ((round (x * 100000000) : ℤ) : ℚ) ≤ ((round (y * 100000000) : ℤ) : ℚ) := by
    exact_mod_cast hr
  have hpos : (0:ℚ) ≤ 100000000 := by norm_num
  exact div_le_div_of_nonneg_right hr' hpos

theorem round8_add_unit (x : ℚ) :
    round8 (x + 1 / 100000000) = round8 x + 1 / 100000000 := by
  unfold round8
  have h : (x + 1 / 100000000) * 100000000 = x * 100000000 + (1 : ℤ) := by
    push_cast
    ring
  rw [h, round_add_int]
  push_cast
  ring

theorem round8_fixed {q : ℚ} (h : Dec8 q) : round8 q = q := by
  unfold round8
  rw [← Rat.coe_int_num_of_den_eq_one h, round_intCast, Rat.coe_int_num_of_den_eq_one h]
  field_simp

theorem round8_strict {x y : ℚ} (h : x + 1 / 100000000 ≤ y) : round8 x < round8 y := by
  have h1 : round8 x + 1 / 100000000 ≤ round8 y := by
    rw [← round8_add_unit]
    exact round8_mono h
  linarith

theorem getD_map_range {f : ℕ → ℚ} {n i : ℕ} (h : i < n) :
    ((List.range n).map f).getD i 0 = f i := by
  simp [List.getD, h]

/-! ## C4: arithmetic level computation -/

theorem calculate_fixed_grid_ok {lower upper : ℚ} {n : ℕ} (h2 : 2 ≤ n)
    (hlt : lower < upper) :
    calculate_fixed_grid lower upper n =
      .ok ((List.range n).map
        (fun (i : ℕ) => round8 (lower + (i : ℚ) * ((upper - lower) / ((n : ℚ) - 1))))) := by
  unfold calculate_fixed_grid
  rw [if_neg (by omega), if_neg (not_le.2 hlt)]

/-- C4 (amended): `calculate_fixed_grid` returns, for `n ≥ 2` and
`lower < upper`, the `n` prices `round8 (lower + i·(upper−lower)/(n−1))`
— the claimed closed form composed with rounding to 8 decimal places; it
fails when `n < 2` or `upper ≤ lower`; when both bounds are 8-decimal
values and the spacing is at least `1e-8`, the endpoints are exact and
the sequence is strictly increasing; and the claimed 5-level example is
exact. -/
theorem calculate_fixed_grid_spec :
    (∀ (lower upper : ℚ) (n : ℕ), 0 < lower → 2 ≤ n → lower < upper →
      ∃ L, calculate_fixed_grid lower upper n = .ok L ∧ L.length = n ∧
        ∀ i, i < n →
          L.getD i 0 = round8 (lower + i * ((upper - lower) / ((n : ℚ) - 1))))
    ∧ (∀ (lower upper : ℚ) (n : ℕ), n < 2 ∨ upper ≤ lower →
        ∃ msg, calculate_fixed_grid lower upper n = .error msg)
    ∧ (∀ (lower upper : ℚ) (n : ℕ), 0 < lower → 2 ≤ n → lower < upper →
        Dec8 lower → Dec8 upper →
        ((n : ℚ) - 1) * (1 / 100000000) ≤ upper - lower →
        ∃ L, calculate_fixed_grid lower upper n = .ok L ∧
          L.getD 0 0 = lower ∧ L.getD (n - 1) 0 = upper ∧ L.Chain' (· < ·))
    ∧ calculate_fixed_grid 100 200 5 = .ok [100, 125, 150, 175, 200] := by
  have hcast : ∀ n : ℕ, 2 ≤ n → (0:ℚ) < (n : ℚ) - 1 := by
    intro n hn
    have : (2:ℚ) ≤ (n : ℚ) := by exact_mod_cast hn
    linarith
  refine ⟨?_, ?_, ?_, ?_⟩
  · intro lower upper n _ h2 hlt
    refine ⟨_, calculate_fixed_grid_ok h2 hlt, by simp, ?_⟩
    intro i hi
    exact getD_map_range hi
  · intro lower upper n h
    unfold calculate_fixed_grid
    rcases h with h | h
    · exact ⟨_, by rw [if_pos h]⟩
    · by_cases h2 : n < 2
      · exact ⟨_, by rw [if_pos h2]⟩
      · exact ⟨_, by rw [if_neg h2, if_pos h]⟩
  · intro lower upper n _ h2 hlt hdl hdu hsp
    have hn1 : (0:ℚ) < (n : ℚ) - 1 := hcast n h2
    have hstep : 1 / 100000000 ≤ (upper - lower) / ((n : ℚ) - 1) := by
      rw [le_div_iff₀ hn1]
      calc 1 / 100000000 * ((n : ℚ) - 1) = ((n : ℚ) - 1) * (1 / 100000000) := by ring
        _ ≤ upper - lower := hsp
    refine ⟨_, calculate_fixed_grid_ok h2 hlt, ?_, ?_, ?_⟩
    · rw [getD_map_range (by omega)]
      norm_num
      exact round8_fixed hdl
    · rw [getD_map_range (by omega)]
      have hc : ((n - 1 : ℕ) : ℚ) = (n : ℚ) - 1 := by
        have h1 : 1 ≤ n := by omega
        push_cast [h1]
        ring
      rw [hc, mul_div_cancel₀ _ (ne_of_gt hn1)]
      have hlu : lower + (upper - lower) = upper := by ring
      rw [hlu]
      exact round8_fixed hdu
    · obtain ⟨m, rfl⟩ : ∃ m, n = m + 1 := ⟨n - 1, by omega⟩
      rw [List.chain'_map, List.chain'_range_succ]
      intro i hi
      apply round8_strict
      have hpc : ((i + 1 : ℕ) : ℚ) = (i : ℚ) + 1 := by push_cast; ring
      rw [hpc]
      calc lower + (i : ℚ) * ((upper - lower) / ((↑(m + 1) : ℚ) - 1)) + 1 / 100000000
          ≤ lower + (i : ℚ) * ((upper - lower) / ((↑(m + 1) : ℚ) - 1))
            + (upper - lower) / ((↑(m + 1) : ℚ) - 1) := by linarith [hstep]
        _ = lower + ((i : ℚ) + 1) * ((upper - lower) / ((↑(m + 1) : ℚ) - 1)) := by ring
  · rw [calculate_fixed_grid_ok (by norm_num) (by norm_num)]
    simp only [List.range_succ, List.range_zero, List.map_cons, List.map_nil,
      List.nil_append, List.cons_append]
    norm_num [round8, round_eq]

/-- C4 witness: the amended calculator specification instantiated at the
claim's own example grid (and the error part at `upper = lower`). -/
theorem calculate_fixed_grid_spec_witness :
    (∃ L, calculate_fixed_grid 100 200 5 = .ok L ∧ L.length = 5 ∧
      ∀ i, i < 5 →
        L.getD i 0 = round8 (100 + (i : ℚ) * ((200 - 100) / ((5 : ℚ) - 1))))
    ∧ (∃ msg, calculate_fixed_grid 100 100 5 = .error msg)
    ∧ (∃ L, calculate_fixed_grid 100 200 5 = .ok L ∧ L.getD 0 0 = 100 ∧
        L.getD (5 - 1) 0 = 200 ∧ L.Chain' (· < ·)) :=
  ⟨calculate_fixed_grid_spec.1 100 200 5 (by norm_num) (by norm_num) (by norm_num),
   calculate_fixed_grid_spec.2.1 100 100 5 (Or.inr (by norm_num)),
   calculate_fixed_grid_spec.2.2.1 100 200 5 (by norm_num) (by norm_num)
     (by norm_num) (by rw [Dec8]; norm_num [Rat.den_ofNat])
     (by rw [Dec8]; norm_num [Rat.den_ofNat]) (by norm_num)⟩

/-- C4 counterexample: the literal claim `levels[i] = lower +
i·(upper−lower)/(n−1)` fails at `lower = 100, upper = 200, n = 4`:
level 1 is `133.33333333`, not `400/3`, because the source rounds each
level to 8 decimal places. -/
theorem calculate_fixed_grid_not_exact :
    ((calculate_fixed_grid 100 200 4).toOption.getD []).getD 1 0
        = 13333333333 / 100000000
    ∧ ((calculate_fixed_grid 100 200 4).toOption.getD []).getD 1 0
        ≠ 100 + 1 * ((200 - 100) / ((4 : ℚ) - 1)) := by
  have h : calculate_fixed_grid 100 200 4 =
      .ok [100, 13333333333 / 100000000, 16666666667 / 100000000, 200] := by
    rw [calculate_fixed_grid_ok (by norm_num) (by norm_num)]
    simp only [List.range_succ, List.range_zero, List.map_cons, List.map_nil,
      List.nil_append, List.cons_append]
    norm_num [round8, round_eq]
  rw [h]
  constructor
  · simp [Except.toOption]
  · simp [Except.toOption]
    norm_num

/-! ## C5: polarity -/

/-- C5: `determine_side` returns `skip` iff `|price − mid| ≤ 1e-5`,
`buy` iff `price < mid − 1e-5` and `sell` iff `price > mid + 1e-5`, with
the absolute tolerance of `1e-5` price units the source hard-codes; on
the 5-level grid `[100, 125, 150, 175, 200]` with mid 150 the polarities
are `[buy, buy, skip, sell, sell]`. -/
theorem determine_side_spec :
    (∀ price mid : ℚ,
      (determine_side price mid = .skip ↔ |price - mid| ≤ 1 / 100000) ∧
      (determine_side price mid = .buy ↔ price < mid - 1 / 100000) ∧
      (determine_side price mid = .sell ↔ mid + 1 / 100000 < price))
    ∧ ([(100:ℚ), 125, 150, 175, 200].map fun p => determine_side p 150)
        = [.buy, .buy, .skip, .sell, .sell] := by
  constructor
  · intro price mid
    simp only [determine_side]
    split_ifs with h1 h2
    · refine ⟨⟨fun h => absurd h (by decide), fun habs => ?_⟩,
        ⟨fun _ => h1, fun _ => rfl⟩, ⟨fun h => absurd h (by decide), fun h => ?_⟩⟩
      · exfalso
        rw [abs_le] at habs
        linarith [habs.1]
      · exfalso
        linarith
    · refine ⟨⟨fun h => absurd h (by decide), fun habs => ?_⟩,
        ⟨fun h => absurd h (by decide), fun h => ?_⟩, ⟨fun _ => h2, fun _ => rfl⟩⟩
      · exfalso
        rw [abs_le] at habs
        linarith [habs.2]
      · exfalso
        linarith
    · push_neg at h1 h2
      refine ⟨⟨fun _ => ?_, fun _ => rfl⟩,
        ⟨fun h => absurd h (by decide), fun h => ?_⟩,
        ⟨fun h => absurd h (by decide), fun h => ?_⟩⟩
      · rw [abs_le]
        constructor <;> linarith
      · exfalso
        linarith
      · exfalso
        linarith
  · norm_num [determine_side]

/-! ## C6: quantizer idempotence -/

theorem round_quant_idem {t x : ℚ} (ht : 0 < t) :
    ((round (((round (x / t) : ℤ) * t) / t) : ℤ) * t : ℚ) = (round (x / t) : ℤ) * t := by
  rw [mul_div_cancel_right₀ _ (ne_of_gt ht), round_intCast]

/-- C6: `round_price` and `round_size` are idempotent for every
`(exchange, symbol)` pair and every rational input — in particular for
every price inside the grid band.  (In the exact decimal semantics the
spec mandates; the proof needs no band restriction.) -/
theorem quantizer_idempotent :
    ∀ (exchange symbol : String) (x s : ℚ),
      round_price exchange symbol (round_price exchange symbol x)
          = round_price exchange symbol x
      ∧ round_size exchange symbol (round_size exchange symbol s)
          = round_size exchange symbol s := by
  intro exchange symbol x s
  constructor
  · rcases hreq : REQUIREMENTS exchange symbol with _ | reqs
    · simp [round_price, hreq]
    · simp only [round_price, hreq]
      split_ifs with ht
      · exact round_quant_idem ht
      · rfl
  · rcases hreq : REQUIREMENTS exchange symbol with _ | reqs
    · simp [round_size, hreq]
    · simp only [round_size, hreq]
      split_ifs with ht
      · exact round_quant_idem ht
      · rfl

/-! ## C7: Venue-A size conversion -/

/-- C7 counterexample: the claim `amt = s·p` for buys and `amt = s` for
sells fails at `s = 0.001, p = 1000000`: the adapter sends a fixed
`amt = 100` for the buy (not `1000`) and `amt = 100/p = 0.0001` for the
sell (not `0.001`), ignoring the engine-supplied size. -/
theorem bitkub_place_params_ignores_size :
    (bitkub_place_params "THB_BTC" .buy 1000000 (1/1000)).amt = 100
    ∧ (bitkub_place_params "THB_BTC" .buy 1000000 (1/1000)).amt
        ≠ (1/1000 : ℚ) * 1000000
    ∧ (bitkub_place_params "THB_BTC" .sell 1000000 (1/1000)).amt = 100 / 1000000
    ∧ (bitkub_place_params "THB_BTC" .sell 1000000 (1/1000)).amt ≠ (1/1000 : ℚ) := by
  refine ⟨rfl, ?_, rfl, ?_⟩
  · simp only [bitkub_place_params]
    norm_num
  · simp only [bitkub_place_params]
    rw [if_neg (by decide)]
    norm_num

/-- C7 (amended): every Bitkub `place_limit_order` call submits a fixed
100-THB order — `amt = 100` (quote currency) for buys and
`amt = 100/price` (base currency) for sells — ignoring the
engine-supplied size; `rat` is the engine price, `typ` is `"limit"`,
buys go to `place-bid` and sells to `place-ask`, and the engine symbol
`THB_BTC` is inverted to the venue's `BTC_THB`. -/
theorem bitkub_place_params_spec :
    ∀ (symbol : String) (side : OrderSide) (price amount : ℚ),
      (bitkub_place_params symbol side price amount).amt
          = (if side = .buy then 100 else 100 / price)
      ∧ (bitkub_place_params symbol side price amount).rat = price
      ∧ (bitkub_place_params symbol side price amount).typ = "limit"
      ∧ bitkub_place_endpoint .buy = "/api/v3/market/place-bid"
      ∧ bitkub_place_endpoint .sell = "/api/v3/market/place-ask"
      ∧ (bitkub_place_params "THB_BTC" side price amount).sym = "BTC_THB" := by
  intro symbol side price amount
  exact ⟨rfl, rfl, rfl, rfl, rfl, rfl⟩

/-! ## C8: Venue-A cancellation side discovery -/

/-- C8: `BitkubExchange.cancel_order` first looks the order's side up in
its own `fetch_open_orders` listing and cancels with that side
(succeeding iff the venue accepts that attempt); when the order is
absent from the listing it tries `sell` then `buy`, and succeeds exactly
when the venue accepts one of the two attempts. -/
theorem bitkub_cancel_order_spec :
    ∀ (open_orders : List ExOrder) (accepts : OrderSide → Bool) (oid : Nat),
      (∀ sd, bitkub_lookup_side open_orders oid = some sd →
        bitkub_cancel_order open_orders accepts oid =
          (if accepts sd then .ok sd else .error "Failed to cancel order"))
      ∧ (bitkub_lookup_side open_orders oid = none →
        ((bitkub_cancel_order open_orders accepts oid).toOption.isSome
          = (accepts .sell || accepts .buy))) := by
  intro open_orders accepts oid
  constructor
  · intro sd hsd
    unfold bitkub_cancel_order
    rw [hsd]
  · intro hnone
    unfold bitkub_cancel_order
    rw [hnone]
    by_cases hs : accepts .sell
    · simp [hs, Except.toOption]
    · by_cases hb : accepts .buy
      · simp [hs, hb, Except.toOption]
      · simp [hs, hb, Except.toOption]

/-- C8 witness: a concrete listed sell order is cancelled with the
looked-up `sell` side, and with an empty listing the adapter succeeds on
a venue that only accepts the `buy` attempt. -/
theorem bitkub_cancel_order_spec_witness :
    bitkub_cancel_order [⟨7, .sell, 100, 1⟩] (fun sd => decide (sd = .sell)) 7
        = .ok .sell
    ∧ (bitkub_cancel_order [] (fun sd => decide (sd = .buy)) 9).toOption.isSome
        = true := by
  constructor
  · have h := (bitkub_cancel_order_spec [⟨7, .sell, 100, 1⟩]
      (fun sd => decide (sd = .sell)) 7).1 .sell (by decide)
    rw [h]
    rfl
  · have h := (bitkub_cancel_order_spec [] (fun sd => decide (sd = .buy)) 9).2
      (by decide)
    rw [h]
    decide

/-! ## C9: illegal start -/

/-- C9 counterexample: with the engine already running, `start_bot` with
`confirm = true` returns `{success: true, "Bot started successfully"}`,
not `{success: false}` as the claim states (the engine-level `start` is
a silent no-op, and the service layer reports success). -/
theorem start_bot_while_running_reports_success :
    (start_bot
        { levels := [100, 200], zone_map := [], running := true,
          active_orders := [(1, ⟨0, 0, .buy, 100, 1, .opened⟩)],
          exchange := "okx", symbol := "BTC/USDT", position_size := 1 }
        true true [] none (fun _ => none)).2
      = ⟨true, "Bot started successfully"⟩ := by
  rfl

/-- C9 (amended): calling start with `confirm = true` while the engine is
already running leaves the engine state completely unchanged — no orders
are placed — but returns `{success: true, message: "Bot started
successfully"}` to the caller rather than `{success: false}`. -/
theorem start_bot_while_running_noop :
    ∀ (s : EngineState) (open_orders : List ExOrder) (ticker : Option ℚ)
      (resp : Nat → Option Nat),
      s.running = true →
      start_bot s true true open_orders ticker resp
        = (s, ⟨true, "Bot started successfully"⟩) := by
  intro s open_orders ticker resp hrun
  unfold start_bot engine_start
  simp [hrun]

/-- C9 witness: the amended no-op behaviour at a concrete running
state. -/
theorem start_bot_while_running_noop_witness :
    start_bot
        { levels := [100, 200], zone_map := [], running := true,
          active_orders := [(1, ⟨0, 0, .buy, 100, 1, .opened⟩)],
          exchange := "okx", symbol := "BTC/USDT", position_size := 1 }
        true true [] none (fun _ => none)
      = ({ levels := [100, 200], zone_map := [], running := true,
           active_orders := [(1, ⟨0, 0, .buy, 100, 1, .opened⟩)],
           exchange := "okx", symbol := "BTC/USDT", position_size := 1 },
         ⟨true, "Bot started successfully"⟩) :=
  start_bot_while_running_noop _ [] none (fun _ => none) rfl

/-! ## C10: cancel-level no-op path -/

/-- C10: at any in-range level holding no open tracked order, the
engine's `cancel_order_at_level` returns `False` with the state
unchanged, while the service's `cancel_order_at_level` still reports
`{success: true, "Order at level i cancelled"}`. -/
theorem cancel_level_noop_spec :
    ∀ (s : EngineState) (cancelOk : Nat → Bool) (i : Nat),
      i < s.levels.length →
      (∀ e ∈ s.active_orders, ¬(e.2.level_index = i ∧ e.2.status = .opened)) →
      cancel_order_at_level s cancelOk i = .ok (false, s)
      ∧ service_cancel_order_at_level s cancelOk i
          = (s, ⟨true, "Order at level " ++ toString i ++ " cancelled"⟩) := by
  intro s cancelOk i hi hnone
  have hfind : s.active_orders.find?
      (fun e => decide (e.2.level_index = i ∧ e.2.status = .opened)) = none := by
    rw [List.find?_eq_none]
    intro e he
    simpa using hnone e he
  have heng : cancel_order_at_level s cancelOk i = .ok (false, s) := by
    unfold cancel_order_at_level
    rw [if_neg (by omega), hfind]
  refine ⟨heng, ?_⟩
  unfold service_cancel_order_at_level
  rw [heng]

/-- C10 witness: a concrete 2-level state whose only tracked order sits
(filled) at level 0: cancelling level 1 is an engine-level no-op yet a
service-level success. -/
theorem cancel_level_noop_spec_witness :
    cancel_order_at_level
        { levels := [100, 200], zone_map := [], running := true,
          active_orders := [(1, ⟨0, 0, .buy, 100, 1, .filled⟩)],
          exchange := "okx", symbol := "BTC/USDT", position_size := 1 }
        (fun _ => true) 1
      = .ok (false,
        { levels := [100, 200], zone_map := [], running := true,
          active_orders := [(1, ⟨0, 0, .buy, 100, 1, .filled⟩)],
          exchange := "okx", symbol := "BTC/USDT", position_size := 1 })
    ∧ service_cancel_order_at_level
        { levels := [100, 200], zone_map := [], running := true,
          active_orders := [(1, ⟨0, 0, .buy, 100, 1, .filled⟩)],
          exchange := "okx", symbol := "BTC/USDT", position_size := 1 }
        (fun _ => true) 1
      = ({ levels := [100, 200], zone_map := [], running := true,
           active_orders := [(1, ⟨0, 0, .buy, 100, 1, .filled⟩)],
           exchange := "okx", symbol := "BTC/USDT", position_size := 1 },
         ⟨true, "Order at level " ++ toString 1 ++ " cancelled"⟩) :=
  cancel_level_noop_spec _ (fun _ => true) 1 (by decide) (by decide)

/-! ## Tracked-order list lemmas -/

theorem mem_setOrder_weak {l : List (Nat × LiveOrder)} {k : Nat} {v : LiveOrder}
    {e : Nat × LiveOrder} (h : e ∈ setOrder l k v) : e = (k, v) ∨ e ∈ l := by
  induction l with
  | nil => simpa [setOrder] using h
  | cons a rest ih =>
    simp only [setOrder] at h
    split_ifs at h with ha
    · rcases List.mem_cons.1 h with h | h
      · exact .inl h
      · exact .inr (List.mem_cons_of_mem a h)
    · rcases List.mem_cons.1 h with h | h
      · exact .inr (h ▸ List.mem_cons_self a rest)
      · rcases ih h with h | h
        · exact .inl h
        · exact .inr (List.mem_cons_of_mem a h)

theorem mem_openLevels {l : List (Nat × LiveOrder)} {x : Nat} :
    x ∈ openLevels l ↔ ∃ e ∈ l, e.2.status = .opened ∧ e.2.level_index = x := by
  simp only [openLevels, List.mem_map, List.mem_filter, decide_eq_true_eq]
  constructor
  · rintro ⟨e, ⟨he, hst⟩, hlv⟩
    exact ⟨e, he, hst, hlv⟩
  · rintro ⟨e, he, hst, hlv⟩
    exact ⟨e, ⟨he, hst⟩, hlv⟩

theorem openLevels_cons (e : Nat × LiveOrder) (l : List (Nat × LiveOrder)) :
    openLevels (e :: l) =
      if e.2.status = .opened then e.2.level_index :: openLevels l
      else openLevels l := by
  unfold openLevels
  rw [List.filter_cons]
  by_cases h : e.2.status = .opened <;> simp [h]

theorem mem_openLevels_setOrder {l : List (Nat × LiveOrder)} {k : Nat}
    {v : LiveOrder} {x : Nat} (h : x ∈ openLevels (setOrder l k v)) :
    x = v.level_index ∨ x ∈ openLevels l := by
  rcases mem_openLevels.1 h with ⟨e, he, hst, hlv⟩
  rcases mem_setOrder_weak he with rfl | he'
  · exact .inl hlv.symm
  · exact .inr (mem_openLevels.2 ⟨e, he', hst, hlv⟩)

theorem openUnique_setOrder {l : List (Nat × LiveOrder)} {k : Nat} {v : LiveOrder}
    (h : (openLevels l).Nodup) (hv : v.level_index ∉ openLevels l) :
    (openLevels (setOrder l k v)).Nodup := by
  induction l with
  | nil =>
    simp only [setOrder]
    rw [openLevels_cons]
    split_ifs <;> simp [openLevels]
  | cons a rest ih =>
    simp only [setOrder]
    rw [openLevels_cons a rest] at h hv
    split_ifs with ha
    · rw [openLevels_cons]
      by_cases hao : a.2.status = .opened
      · rw [if_pos hao] at h hv
        rcases List.nodup_cons.1 h with ⟨_, hrest⟩
        have hv' : v.level_index ∉ openLevels rest := fun hm =>
          hv (List.mem_cons_of_mem _ hm)
        split_ifs with hvo
        · exact List.nodup_cons.2 ⟨hv', hrest⟩
        · exact hrest
      · rw [if_neg hao] at h hv
        split_ifs with hvo
        · exact List.nodup_cons.2 ⟨hv, h⟩
        · exact h
    · rw [openLevels_cons]
      by_cases hao : a.2.status = .opened
      · rw [if_pos hao] at h hv ⊢
        rcases List.nodup_cons.1 h with ⟨hha, hrest⟩
        have hv' : v.level_index ∉ openLevels rest := fun hm =>
          hv (List.mem_cons_of_mem _ hm)
        refine List.nodup_cons.2 ⟨?_, ih hrest hv'⟩
        intro hmem
        rcases mem_openLevels_setOrder hmem with h1 | h1
        · exact hv (h1 ▸ List.mem_cons_self _ _)
        · exact hha h1
      · rw [if_neg hao] at h hv ⊢
        exact ih h hv

theorem openLevels_map_sublist {f : Nat × LiveOrder → Nat × LiveOrder}
    (hf : ∀ e, f e = e ∨ (f e).2.status ≠ .opened) (l : List (Nat × LiveOrder)) :
    List.Sublist (openLevels (l.map f)) (openLevels l) := by
  induction l with
  | nil => simp [openLevels]
  | cons a rest ih =>
    rw [List.map_cons, openLevels_cons, openLevels_cons]
    rcases hf a with h | h
    · rw [h]
      split_ifs with ha
      · exact ih.cons₂ _
      · exact ih
    · rw [if_neg h]
      split_ifs with ha
      · exact ih.trans (List.sublist_cons_self _ _)
      · exact ih

theorem keys_map_of_fst {f : Nat × LiveOrder → Nat × LiveOrder}
    (hf : ∀ e, (f e).1 = e.1) (l : List (Nat × LiveOrder)) :
    (l.map f).map Prod.fst = l.map Prod.fst := by
  induction l with
  | nil => rfl
  | cons a rest ih => simp [hf a, ih]

theorem openLevels_markStatus_sublist {l : List (Nat × LiveOrder)} {k : Nat}
    {st : OrderStatus} (hst : st ≠ .opened) :
    List.Sublist (openLevels (markStatus l k st)) (openLevels l) := by
  apply openLevels_map_sublist
  intro e
  by_cases h : e.1 = k
  · right
    simp [h, hst]
  · left
    simp [h]

theorem keys_markStatus (l : List (Nat × LiveOrder)) (k : Nat) (st : OrderStatus) :
    (markStatus l k st).map Prod.fst = l.map Prod.fst := by
  apply keys_map_of_fst
  intro e
  by_cases h : e.1 = k <;> simp [h]

theorem mem_markStatus_open {l : List (Nat × LiveOrder)} {k : Nat}
    {st : OrderStatus} (hst : st ≠ .opened) {e : Nat × LiveOrder}
    (he : e ∈ markStatus l k st) (hop : e.2.status = .opened) : e ∈ l := by
  unfold markStatus at he
  rcases List.mem_map.1 he with ⟨a, ha, hfa⟩
  by_cases h : a.1 = k
  · rw [if_pos h] at hfa
    rw [← hfa] at hop
    exact absurd hop hst
  · rw [if_neg h] at hfa
    exact hfa ▸ ha

theorem markStatus_key_status {l : List (Nat × LiveOrder)} {k : Nat}
    {st : OrderStatus} {e : Nat × LiveOrder} (he : e ∈ markStatus l k st)
    (hk : e.1 = k) : e.2.status = st := by
  unfold markStatus at he
  rcases List.mem_map.1 he with ⟨a, ha, hfa⟩
  by_cases h : a.1 = k
  · rw [if_pos h] at hfa
    rw [← hfa]
  · rw [if_neg h] at hfa
    exact absurd (hfa ▸ hk) h

theorem mem_keys_setOrder {l : List (Nat × LiveOrder)} {k : Nat} {v : LiveOrder}
    {x : Nat} (h : x ∈ (setOrder l k v).map Prod.fst) :
    x = k ∨ x ∈ l.map Prod.fst := by
  rcases List.mem_map.1 h with ⟨e, he, rfl⟩
  rcases mem_setOrder_weak he with rfl | he'
  · exact .inl rfl
  · exact .inr (List.mem_map_of_mem _ he')

theorem keysNodup_setOrder {l : List (Nat × LiveOrder)} {k : Nat} {v : LiveOrder}
    (h : (l.map Prod.fst).Nodup) : ((setOrder l k v).map Prod.fst).Nodup := by
  induction l with
  | nil => simp [setOrder]
  | cons a rest ih =>
    simp only [setOrder]
    split_ifs with ha
    · rw [List.map_cons] at h ⊢
      rcases List.nodup_cons.1 h with ⟨hna, hnd⟩
      exact List.nodup_cons.2 ⟨ha ▸ hna, hnd⟩
    · rw [List.map_cons] at h ⊢
      rcases List.nodup_cons.1 h with ⟨hna, hnd⟩
      refine List.nodup_cons.2 ⟨?_, ih hnd⟩
      intro hmem
      rcases mem_keys_setOrder hmem with h1 | h1
      · exact ha h1
      · exact hna h1

theorem open_level_inj {l : List (Nat × LiveOrder)} (h : (openLevels l).Nodup)
    {e1 e2 : Nat × LiveOrder} (h1 : e1 ∈ l) (h2 : e2 ∈ l)
    (ho1 : e1.2.status = .opened) (ho2 : e2.2.status = .opened)
    (hl : e1.2.level_index = e2.2.level_index) : e1 = e2 := by
  unfold openLevels at h
  have m1 : e1 ∈ l.filter (fun e => decide (e.2.status = .opened)) :=
    List.mem_filter.2 ⟨h1, by simp [ho1]⟩
  have m2 : e2 ∈ l.filter (fun e => decide (e.2.status = .opened)) :=
    List.mem_filter.2 ⟨h2, by simp [ho2]⟩
  exact List.inj_on_of_nodup_map h m1 m2 hl

theorem has_open_at_false {l : List (Nat × LiveOrder)} {i : Nat}
    (h : has_open_at l i = false) : i ∉ openLevels l := by
  intro hmem
  rcases mem_openLevels.1 hmem with ⟨e, he, ho', hl⟩
  have htrue : has_open_at l i = true := by
    unfold has_open_at
    rw [List.any_eq_true]
    exact ⟨e, he, by simp [ho', hl]⟩
  rw [htrue] at h
  cases h

/-! ## Replace-order lemmas -/

theorem replace_order_fst_cases (s : EngineState) (ao : List (Nat × LiveOrder))
    (i : Nat) (mid : ℚ) (resp : Option Nat) :
    (replace_order s ao i mid resp).1 = ao ∨
    ∃ oid side, (replace_order s ao i mid resp).1
      = setOrder ao oid
        { level_index := i, zone_id := zone_id_of s i, side := side,
          price := s.levels.getD i 0, size := s.position_size,
          status := .opened } := by
  simp only [replace_order]
  split_ifs with h1 h2 h3
  · exact .inl rfl
  · exact .inl rfl
  · exact .inl rfl
  · cases hds : determine_side (s.levels.getD i 0) mid
    · cases resp with
      | none => exact .inl rfl
      | some oid => exact .inr ⟨oid, .buy, rfl⟩
    · cases resp with
      | none => exact .inl rfl
      | some oid => exact .inr ⟨oid, .sell, rfl⟩
    · exact .inl rfl

theorem replace_order_WFa {s : EngineState} {ao : List (Nat × LiveOrder)}
    {i : Nat} {mid : ℚ} {resp : Option Nat}
    (ho : (openLevels ao).Nodup) (hk : (ao.map Prod.fst).Nodup)
    (hno : i ∉ openLevels ao) :
    (openLevels (replace_order s ao i mid resp).1).Nodup
    ∧ ((replace_order s ao i mid resp).1.map Prod.fst).Nodup := by
  rcases replace_order_fst_cases s ao i mid resp with h | ⟨oid, side, h⟩
  · rw [h]
    exact ⟨ho, hk⟩
  · rw [h]
    exact ⟨openUnique_setOrder ho hno, keysNodup_setOrder hk⟩

theorem mem_replace_order_fst {s : EngineState} {ao : List (Nat × LiveOrder)}
    {i : Nat} {mid : ℚ} {resp : Option Nat} {e : Nat × LiveOrder}
    (he : e ∈ (replace_order s ao i mid resp).1) :
    e ∈ ao ∨ (e.2.level_index = i ∧ e.2.status = .opened) := by
  rcases replace_order_fst_cases s ao i mid resp with h | ⟨oid, side, h⟩
  · rw [h] at he
    exact .inl he
  · rw [h] at he
    rcases mem_setOrder_weak he with rfl | he'
    · exact .inr ⟨rfl, rfl⟩
    · exact .inl he'

theorem replace_order_places {s : EngineState} {ao : List (Nat × LiveOrder)}
    {i : Nat} {mid : ℚ} {oid : Nat}
    (hrun : s.running = true) (hz : zone_enabled s i = true)
    (hi : i < s.levels.length)
    (hside : determine_side (s.levels.getD i 0) mid ≠ .skip) :
    (replace_order s ao i mid (some oid)).2
      = some { level_index := i, side := determine_side (s.levels.getD i 0) mid,
               price := s.levels.getD i 0, size := s.position_size } := by
  simp only [replace_order]
  rw [if_neg (by simp [hrun]), if_neg (by simp [hz]), if_neg (not_le.2 hi)]

/-! ## Monitor-tick fold lemmas -/

theorem monitor_fold_WFa (s : EngineState) (ids : List Nat) (mids : Nat → ℚ)
    (resp : Nat → Option Nat) (orig : List (Nat × LiveOrder))
    (horig : (openLevels orig).Nodup) (hkorig : (orig.map Prod.fst).Nodup) :
    ∀ (pend : List (Nat × LiveOrder))
      (acc : List (Nat × LiveOrder) × Nat × List Placement),
      pend.IsSuffix orig →
      (openLevels acc.1).Nodup → (acc.1.map Prod.fst).Nodup →
      (∀ e ∈ pend, e.2.status = .opened →
        ∀ f ∈ acc.1, f.2.status = .opened →
          f.2.level_index = e.2.level_index → f.1 = e.1) →
      (openLevels (pend.foldl (monitor_step s ids mids resp) acc).1).Nodup
      ∧ ((pend.foldl (monitor_step s ids mids resp) acc).1.map Prod.fst).Nodup := by
  intro pend
  induction pend with
  | nil =>
    intro acc _ h1 h2 _
    exact ⟨h1, h2⟩
  | cons e rest ih =>
    intro acc hsuf h1 h2 hB
    rw [List.foldl_cons]
    have hrest : rest.IsSuffix orig := (List.suffix_cons e rest).trans hsuf
    by_cases hq : e.1 ∉ ids ∧ e.2.status = .opened
    · have hstep : monitor_step s ids mids resp acc e
          = ((replace_order s (markStatus acc.1 e.1 .filled) e.2.level_index
              (mids acc.2.1) (resp acc.2.1)).1,
             acc.2.1 + 1,
             acc.2.2 ++ (replace_order s (markStatus acc.1 e.1 .filled)
              e.2.level_index (mids acc.2.1) (resp acc.2.1)).2.toList) := by
        unfold monitor_step
        rw [if_pos hq]
      rw [hstep]
      have hoA1 : (openLevels (markStatus acc.1 e.1 .filled)).Nodup :=
        (openLevels_markStatus_sublist (by decide)).nodup h1
      have hkA1 : ((markStatus acc.1 e.1 .filled).map Prod.fst).Nodup := by
        rw [keys_markStatus]
        exact h2
      have hno : e.2.level_index ∉ openLevels (markStatus acc.1 e.1 .filled) := by
        intro hmem
        rcases mem_openLevels.1 hmem with ⟨f, hf, hfo, hfl⟩
        have hfacc : f ∈ acc.1 := mem_markStatus_open (by decide) hf hfo
        have hfk : f.1 = e.1 :=
          hB e (List.mem_cons_self e rest) hq.2 f hfacc hfo hfl
        have hfst : f.2.status = .filled := markStatus_key_status hf hfk
        rw [hfst] at hfo
        cases hfo
      refine ih _ hrest (replace_order_WFa hoA1 hkA1 hno).1
        (replace_order_WFa hoA1 hkA1 hno).2 ?_
      intro e' he' ho' f hf hfo hfl
      rcases mem_replace_order_fst hf with hf1 | ⟨hfl2, _⟩
      · have hfacc : f ∈ acc.1 := mem_markStatus_open (by decide) hf1 hfo
        exact hB e' (List.mem_cons_of_mem e he') ho' f hfacc hfo hfl
      · exfalso
        have hee' : e.2.level_index = e'.2.level_index := by
          rw [← hfl2, hfl]
        have heo : e ∈ orig := hsuf.subset (List.mem_cons_self e rest)
        have he'o : e' ∈ orig := hsuf.subset (List.mem_cons_of_mem e he')
        have heq : e = e' := open_level_inj horig heo he'o hq.2 ho' hee'
        have hnd : (e :: rest).Nodup :=
          (hkorig.of_map Prod.fst).sublist hsuf.sublist
        exact (List.nodup_cons.1 hnd).1 (heq ▸ he')
    · have hstep : monitor_step s ids mids resp acc e = acc := by
        unfold monitor_step
        rw [if_neg hq]
      rw [hstep]
      exact ih acc hrest h1 h2 (fun e' he' => hB e' (List.mem_cons_of_mem e he'))

theorem monitor_tick_WFa {s : EngineState} {oo : List ExOrder} {mids : Nat → ℚ}
    {resp : Nat → Option Nat}
    (ho : (openLevels s.active_orders).Nodup)
    (hk : (s.active_orders.map Prod.fst).Nodup) :
    (openLevels (monitor_tick s oo mids resp).1.active_orders).Nodup
    ∧ ((monitor_tick s oo mids resp).1.active_orders.map Prod.fst).Nodup := by
  unfold monitor_tick
  split_ifs with h1 h2
  · exact ⟨ho, hk⟩
  · refine monitor_fold_WFa s (oo.map (·.id)) mids resp s.active_orders ho hk
      s.active_orders (s.active_orders, 0, []) (List.suffix_refl _) ho hk ?_
    intro e he hoe f hf hfo hfl
    exact congrArg Prod.fst (open_level_inj ho hf he hfo hoe hfl)
  · exact ⟨ho, hk⟩

/-! ## Adoption (sync) fold lemmas -/

theorem adopt_fold_WFa (s : EngineState) :
    ∀ (oo : List ExOrder) (acc : List (Nat × LiveOrder)),
      (oo.filterMap (fun o => closest_level s.levels o.price)).Nodup →
      (openLevels acc).Nodup → (acc.map Prod.fst).Nodup →
      (∀ o ∈ oo, ∀ i, closest_level s.levels o.price = some i →
        i ∉ openLevels acc) →
      (openLevels (oo.foldl (adopt_step s) acc)).Nodup
      ∧ ((oo.foldl (adopt_step s) acc).map Prod.fst).Nodup := by
  intro oo
  induction oo with
  | nil =>
    intro acc _ h1 h2 _
    exact ⟨h1, h2⟩
  | cons o rest ih =>
    intro acc hg h1 h2 hno
    rw [List.foldl_cons]
    cases hcl : closest_level s.levels o.price with
    | none =>
      have hstep : adopt_step s acc o = acc := by
        unfold adopt_step
        rw [hcl]
      rw [hstep]
      refine ih acc ?_ h1 h2 ?_
      · simp only [List.filterMap_cons, hcl] at hg
        exact hg
      · exact fun o' ho' => hno o' (List.mem_cons_of_mem o ho')
    | some i =>
      have hstep : adopt_step s acc o = setOrder acc o.id
          { level_index := i, zone_id := zone_id_of s i, side := o.side,
            price := o.price, size := o.amount, status := .opened } := by
        unfold adopt_step
        rw [hcl]
      rw [hstep]
      simp only [List.filterMap_cons, hcl] at hg
      rcases List.nodup_cons.1 hg with ⟨hinotin, hgrest⟩
      refine ih _ hgrest
        (openUnique_setOrder h1 (hno o (List.mem_cons_self o rest) i hcl))
        (keysNodup_setOrder h2) ?_
      intro o' ho' j hj hmem
      rcases mem_openLevels_setOrder hmem with h | h
      · have h' : j = i := h
        exact hinotin (List.mem_filterMap.2 ⟨o', ho', by rw [hj, h']⟩)
      · exact hno o' (List.mem_cons_of_mem o ho') j hj h

theorem sync_WFa {s : EngineState} {oo : List ExOrder}
    (ho : (openLevels s.active_orders).Nodup)
    (hk : (s.active_orders.map Prod.fst).Nodup)
    (hg : GoodSnapshot s.levels oo) :
    (openLevels (sync_with_exchange_orders s oo).active_orders).Nodup
    ∧ ((sync_with_exchange_orders s oo).active_orders.map Prod.fst).Nodup := by
  unfold sync_with_exchange_orders
  split_ifs with h
  · exact ⟨ho, hk⟩
  · refine adopt_fold_WFa s oo [] hg (by simp [openLevels]) (by simp) ?_
    intro o _ i _ hmem
    simp [openLevels] at hmem

/-! ## Placement fold lemmas -/

theorem place_step_cases (s : EngineState) (mid : ℚ) (resp : Nat → Option Nat)
    (ex : List Nat) (acc : List (Nat × LiveOrder) × Nat) (iv : Nat × ℚ) :
    (place_step s mid resp ex acc iv).1 = acc.1 ∨
    ∃ oid side, (place_step s mid resp ex acc iv).1
      = setOrder acc.1 oid
        { level_index := iv.1, zone_id := zone_id_of s iv.1, side := side,
          price := iv.2, size := s.position_size, status := .opened } := by
  unfold place_step
  split_ifs with h1 h2 hv
  · exact .inl rfl
  · exact .inl rfl
  · cases hds : determine_side iv.2 mid with
    | buy =>
      cases hr : resp acc.2 with
      | none => exact .inl rfl
      | some oid => exact .inr ⟨oid, .buy, rfl⟩
    | sell =>
      cases hr : resp acc.2 with
      | none => exact .inl rfl
      | some oid => exact .inr ⟨oid, .sell, rfl⟩
    | skip => exact .inl rfl
  · cases hds : determine_side iv.2 mid with
    | buy => exact .inl rfl
    | sell => exact .inl rfl
    | skip => exact .inl rfl

theorem place_fold_WFa (s : EngineState) (mid : ℚ) (resp : Nat → Option Nat)
    (ex : List Nat) :
    ∀ (es : List (Nat × ℚ)) (acc : List (Nat × LiveOrder) × Nat),
      (es.map Prod.fst).Nodup →
      (openLevels acc.1).Nodup → (acc.1.map Prod.fst).Nodup →
      (∀ lv ∈ openLevels acc.1, lv ∉ es.map Prod.fst) →
      (openLevels (es.foldl (place_step s mid resp ex) acc).1).Nodup
      ∧ ((es.foldl (place_step s mid resp ex) acc).1.map Prod.fst).Nodup := by
  intro es
  induction es with
  | nil =>
    intro acc _ h1 h2 _
    exact ⟨h1, h2⟩
  | cons iv rest ih =>
    intro acc hnd h1 h2 hdisj
    rw [List.foldl_cons]
    rw [List.map_cons] at hnd
    rcases List.nodup_cons.1 hnd with ⟨hhead, hndr⟩
    rcases place_step_cases s mid resp ex acc iv with h | ⟨oid, side, h⟩
    · refine ih _ hndr (h ▸ h1) (h ▸ h2) ?_
      intro lv hlv
      rw [h] at hlv
      exact fun hm => hdisj lv hlv (List.mem_cons_of_mem _ hm)
    · have hno : iv.1 ∉ openLevels acc.1 := fun hm =>
        hdisj iv.1 hm (List.mem_cons_self _ _)
      refine ih _ hndr (h ▸ openUnique_setOrder h1 hno)
        (h ▸ keysNodup_setOrder h2) ?_
      intro lv hlv
      rw [h] at hlv
      rcases mem_openLevels_setOrder hlv with h' | h'
      · exact h' ▸ hhead
      · exact fun hm => hdisj lv h' (List.mem_cons_of_mem _ hm)

theorem place_grid_core_WFa {s : EngineState} {mid : ℚ} {resp : Nat → Option Nat}
    (hempty : s.active_orders = []) :
    (openLevels (place_grid_core s mid resp).active_orders).Nodup
    ∧ ((place_grid_core s mid resp).active_orders.map Prod.fst).Nodup := by
  unfold place_grid_core
  rw [hempty]
  refine place_fold_WFa s mid resp (openLevels []) s.levels.enum ([], 0)
    (List.nodup_enum_map_fst _) (by simp [openLevels]) (by simp) ?_
  intro lv hlv
  simp [openLevels] at hlv

theorem place_grid_orders_WFa {s : EngineState} {oo : List ExOrder}
    {ticker : Option ℚ} {resp : Nat → Option Nat}
    (ho : (openLevels s.active_orders).Nodup)
    (hk : (s.active_orders.map Prod.fst).Nodup)
    (hg : GoodSnapshot s.levels oo) :
    (openLevels (place_grid_orders s oo ticker resp).1.active_orders).Nodup
    ∧ ((place_grid_orders s oo ticker resp).1.active_orders.map Prod.fst).Nodup := by
  have hs1 := sync_WFa ho hk hg
  simp only [place_grid_orders]
  split_ifs with h
  · exact hs1
  · cases ticker with
    | none => exact hs1
    | some mid =>
      have hempty : (sync_with_exchange_orders s oo).active_orders = [] := by
        rcases List.eq_nil_or_concat (sync_with_exchange_orders s oo).active_orders
          with h' | ⟨l, e, h'⟩
        · exact h'
        · exfalso
          apply h
          rw [h']
          simp
      exact place_grid_core_WFa hempty

theorem engine_start_WFa {s : EngineState} {oo : List ExOrder}
    {ticker : Option ℚ} {resp : Nat → Option Nat}
    (ho : (openLevels s.active_orders).Nodup)
    (hk : (s.active_orders.map Prod.fst).Nodup)
    (hg : GoodSnapshot s.levels oo) :
    (openLevels (engine_start s oo ticker resp).1.active_orders).Nodup
    ∧ ((engine_start s oo ticker resp).1.active_orders.map Prod.fst).Nodup := by
  have hr := @place_grid_orders_WFa { s with running := true } oo ticker resp
    ho hk hg
  simp only [engine_start]
  split_ifs with h h2
  · exact ⟨ho, hk⟩
  · exact hr
  · exact hr

/-! ## Operator-operation preservation lemmas -/

theorem toggle_zone_WFa {s : EngineState} {zid : Nat} {enabled : Bool}
    {cancelOk : Nat → Bool}
    (ho : (openLevels s.active_orders).Nodup)
    (hk : (s.active_orders.map Prod.fst).Nodup) :
    (openLevels (toggle_zone s zid enabled cancelOk).active_orders).Nodup
    ∧ ((toggle_zone s zid enabled cancelOk).active_orders.map Prod.fst).Nodup := by
  unfold toggle_zone
  by_cases he : enabled
  · simp only [if_pos he]
    exact ⟨ho, hk⟩
  · simp only [if_neg he]
    constructor
    · refine (openLevels_map_sublist ?_ _).nodup ho
      intro e
      by_cases hc : e.2.status = .opened ∧ level_in_zone s zid e.2.level_index
          ∧ cancelOk e.1
      · right
        simp [hc]
      · left
        simp [hc]
    · rw [keys_map_of_fst]
      · exact hk
      · intro e
        by_cases hc : e.2.status = .opened ∧ level_in_zone s zid e.2.level_index
            ∧ cancelOk e.1 <;> simp [hc]

theorem cancel_order_at_level_WFa {s : EngineState} {cancelOk : Nat → Bool}
    {i : Nat} {b : Bool} {s' : EngineState}
    (h : cancel_order_at_level s cancelOk i = .ok (b, s'))
    (ho : (openLevels s.active_orders).Nodup)
    (hk : (s.active_orders.map Prod.fst).Nodup) :
    (openLevels s'.active_orders).Nodup
    ∧ (s'.active_orders.map Prod.fst).Nodup := by
  unfold cancel_order_at_level at h
  split_ifs at h with h1
  cases hfind : s.active_orders.find?
      (fun e => decide (e.2.level_index = i ∧ e.2.status = .opened)) with
  | none =>
    rw [hfind] at h
    have := Except.ok.inj h
    have hs : s = s' := congrArg Prod.snd this
    rw [← hs]
    exact ⟨ho, hk⟩
  | some e =>
    rw [hfind] at h
    dsimp only at h
    split_ifs at h with h2
    have := Except.ok.inj h
    have hs : { s with active_orders := markStatus s.active_orders e.1 .cancelled }
        = s' := congrArg Prod.snd this
    rw [← hs]
    exact ⟨(openLevels_markStatus_sublist (by decide)).nodup ho,
      by rw [keys_markStatus]; exact hk⟩

theorem enable_order_at_level_WFa {s : EngineState} {mid : ℚ} {resp : Option Nat}
    {i : Nat} {b : Bool} {s' : EngineState}
    (h : enable_order_at_level s mid resp i = .ok (b, s'))
    (ho : (openLevels s.active_orders).Nodup)
    (hk : (s.active_orders.map Prod.fst).Nodup) :
    (openLevels s'.active_orders).Nodup
    ∧ (s'.active_orders.map Prod.fst).Nodup := by
  simp only [enable_order_at_level] at h
  split_ifs at h with h1 h2 h3
  · -- an open order already sits at the level: state unchanged
    have := Except.ok.inj h
    have hs : s = s' := congrArg Prod.snd this
    rw [← hs]
    exact ⟨ho, hk⟩
  · -- placement path
    cases hds : determine_side (s.levels.getD i 0) mid <;> rw [hds] at h
    · cases hr : resp with
      | none =>
        rw [hr] at h
        cases h
      | some oid =>
        rw [hr] at h
        injection Except.ok.inj h with hb hs
        rw [← hs]
        exact ⟨openUnique_setOrder ho (has_open_at_false (by simpa using h3)),
          keysNodup_setOrder hk⟩
    · cases hr : resp with
      | none =>
        rw [hr] at h
        cases h
      | some oid =>
        rw [hr] at h
        injection Except.ok.inj h with hb hs
        rw [← hs]
        exact ⟨openUnique_setOrder ho (has_open_at_false (by simpa using h3)),
          keysNodup_setOrder hk⟩
    · cases h

theorem engine_stop_WFa {s : EngineState}
    (ho : (openLevels s.active_orders).Nodup)
    (hk : (s.active_orders.map Prod.fst).Nodup) :
    (openLevels (engine_stop s).active_orders).Nodup
    ∧ ((engine_stop s).active_orders.map Prod.fst).Nodup := by
  unfold engine_stop cancel_all_orders
  split_ifs with h
  · exact ⟨by simp [openLevels], by simp⟩
  · exact ⟨ho, hk⟩

/-! ## C1: exactly-one-open policy -/

theorem reachGood_WFa :
    ∀ s : EngineState, ReachGood s →
      (openLevels s.active_orders).Nodup
      ∧ (s.active_orders.map Prod.fst).Nodup := by
  intro s h
  induction h with
  | init s h =>
    rw [h]
    exact ⟨by simp [openLevels], by simp⟩
  | sync s oo hg hs ih => exact sync_WFa ih.1 ih.2 hg
  | placeGrid s oo ticker resp hg hs ih => exact place_grid_orders_WFa ih.1 ih.2 hg
  | start s oo ticker resp hg hs ih => exact engine_start_WFa ih.1 ih.2 hg
  | monitor s oo mids resp hs ih => exact monitor_tick_WFa ih.1 ih.2
  | toggleZone s zid enabled cancelOk hs ih => exact toggle_zone_WFa ih.1 ih.2
  | cancelLevel s cancelOk i b s' h hs ih =>
    exact cancel_order_at_level_WFa h ih.1 ih.2
  | enableLevel s mid resp i b s' h hs ih =>
    exact enable_order_at_level_WFa h ih.1 ih.2
  | stop s hs ih => exact engine_stop_WFa ih.1 ih.2
  | cancelAll s hs ih => exact ⟨by simp [cancel_all_orders, openLevels], by simp [cancel_all_orders]⟩

theorem nodup_const_length_le_one {xs : List Nat} (h : xs.Nodup) {i : Nat}
    (hc : ∀ x ∈ xs, x = i) : xs.length ≤ 1 := by
  match xs with
  | [] => simp
  | [x] => simp
  | x :: y :: rest =>
    exfalso
    have hx := hc x (by simp)
    have hy := hc y (by simp)
    rcases List.nodup_cons.1 h with ⟨hnx, _⟩
    exact hnx (by rw [hx, ← hy]; exact List.mem_cons_self y rest)

theorem filter_level_le_one {l : List (Nat × LiveOrder)}
    (h : (openLevels l).Nodup) (i : Nat) :
    (l.filter (fun e => decide (e.2.status = .opened ∧ e.2.level_index = i))).length
      ≤ 1 := by
  set l2 := l.filter (fun e => decide (e.2.status = .opened ∧ e.2.level_index = i))
    with hl2
  have hsub : List.Sublist l2 (l.filter (fun e => decide (e.2.status = .opened))) := by
    rw [hl2]
    apply List.monotone_filter_right
    intro e he
    simp only [decide_eq_true_eq] at he ⊢
    exact he.1
  have hmap : List.Sublist (l2.map (fun e => e.2.level_index)) (openLevels l) :=
    hsub.map _
  have hnd : (l2.map (fun e => e.2.level_index)).Nodup := hmap.nodup h
  have hconst : ∀ x ∈ l2.map (fun e => e.2.level_index), x = i := by
    intro x hx
    rcases List.mem_map.1 hx with ⟨e, he, rfl⟩
    have := (List.mem_filter.1 (hl2 ▸ he)).2
    simp only [decide_eq_true_eq] at this
    exact this.2
  have := nodup_const_length_le_one hnd hconst
  rwa [List.length_map] at this

/-- C1 (amended): in every state reachable from a freshly initialized
engine by any sequence of sync, initial placement, start, monitor ticks,
zone toggles, per-level cancels/enables, stop and cancel-all — with every
open-orders snapshot handed to `_sync_with_exchange_orders` containing at
most one order per snapped grid level — the tracked-order map holds at
most one `open` entry per `level_index`.  (Without the snapshot proviso
the property fails: see the counterexample.) -/
theorem at_most_one_open_per_level :
    ∀ s : EngineState, ReachGood s → ∀ i : Nat,
      (s.active_orders.filter
        (fun e => decide (e.2.status = .opened ∧ e.2.level_index = i))).length
        ≤ 1 := by
  intro s h i
  exact filter_level_le_one (reachGood_WFa s h).1 i

/-- C1 witness: the amended invariant evaluated on a concrete reachable
state (a fresh engine that adopts one venue order). -/
theorem at_most_one_open_per_level_witness :
    ((sync_with_exchange_orders
        { levels := [], zone_map := [], active_orders := [], running := false,
          exchange := "okx", symbol := "BTC/USDT", position_size := 1 }
        [⟨1, .buy, 100, 1⟩]).active_orders.filter
      (fun e => decide (e.2.status = .opened ∧ e.2.level_index = 0))).length
      ≤ 1 :=
  at_most_one_open_per_level _
    (ReachGood.sync _ _ (by decide) (ReachGood.init _ rfl)) 0

/-- Evaluation of the duplicate-adoption run: two venue orders at 100.5
and 101 both snap to level 0 of the grid [100, 200] and are both stored
as `open`. -/
theorem dup_sync_eval :
    (sync_with_exchange_orders
        { levels := [100, 200], zone_map := [], active_orders := [],
          running := true, exchange := "okx", symbol := "BTC/USDT",
          position_size := 1 }
        [⟨1, .buy, 201/2, 1⟩, ⟨2, .buy, 101, 1⟩]).active_orders
      = [(1, ⟨0, 0, .buy, 201/2, 1, .opened⟩),
         (2, ⟨0, 0, .buy, 101, 1, .opened⟩)] := by
  norm_num [sync_with_exchange_orders, adopt_step, closest_level,
    closest_level_aux, absQ, setOrder, zone_id_of, List.lookup]

/-- C1 counterexample: the exactly-one-open policy, as stated, fails on a
reachable state — a fresh engine over the grid [100, 200] that syncs with
a venue snapshot holding two orders (at 100.5 and 101) snapping to the
same level 0 tracks two `open` entries with `level_index = 0`. -/
theorem duplicate_open_level_reachable :
    Reach (sync_with_exchange_orders
        { levels := [100, 200], zone_map := [], active_orders := [],
          running := true, exchange := "okx", symbol := "BTC/USDT",
          position_size := 1 }
        [⟨1, .buy, 201/2, 1⟩, ⟨2, .buy, 101, 1⟩])
    ∧ 2 ≤ ((sync_with_exchange_orders
        { levels := [100, 200], zone_map := [], active_orders := [],
          running := true, exchange := "okx", symbol := "BTC/USDT",
          position_size := 1 }
        [⟨1, .buy, 201/2, 1⟩, ⟨2, .buy, 101, 1⟩]).active_orders.filter
      (fun e => decide (e.2.status = .opened ∧ e.2.level_index = 0))).length := by
  constructor
  · exact Reach.sync _ _ (Reach.init _ rfl)
  · rw [dup_sync_eval]
    decide

/-! ## C2: API-outage guard -/

/-- C2: a monitoring tick in which `fetch_open_orders` returns the empty
list while the tracked-order map is non-empty is skipped entirely: the
state is unchanged (no order transitions to `filled`) and no replacement
is placed. -/
theorem monitor_tick_outage_guard :
    ∀ (s : EngineState) (mids : Nat → ℚ) (resp : Nat → Option Nat),
      s.active_orders ≠ [] →
      monitor_tick s [] mids resp = (s, []) := by
  intro s mids resp h
  unfold monitor_tick
  rw [if_pos ⟨rfl, List.length_pos.2 h⟩]

/-- C2 witness: the guard at a concrete one-order state. -/
theorem monitor_tick_outage_guard_witness :
    monitor_tick
        { levels := [100, 200], zone_map := [],
          active_orders := [(1, ⟨0, 0, .buy, 100, 1, .opened⟩)], running := true,
          exchange := "okx", symbol := "BTC/USDT", position_size := 1 }
        [] (fun _ => 150) (fun _ => none)
      = ({ levels := [100, 200], zone_map := [],
           active_orders := [(1, ⟨0, 0, .buy, 100, 1, .opened⟩)], running := true,
           exchange := "okx", symbol := "BTC/USDT", position_size := 1 }, []) :=
  monitor_tick_outage_guard _ _ _ (by decide)

/-! ## C3: same-tick replacement -/

theorem monitor_fold_pls_mono (s : EngineState) (ids : List Nat) (mids : Nat → ℚ)
    (resp : Nat → Option Nat) :
    ∀ (pend : List (Nat × LiveOrder))
      (acc : List (Nat × LiveOrder) × Nat × List Placement) (pl : Placement),
      pl ∈ acc.2.2 → pl ∈ (pend.foldl (monitor_step s ids mids resp) acc).2.2 := by
  intro pend
  induction pend with
  | nil =>
    intro acc pl h
    exact h
  | cons e rest ih =>
    intro acc pl h
    rw [List.foldl_cons]
    apply ih
    unfold monitor_step
    split_ifs with hq
    · exact List.mem_append_left _ h
    · exact h

theorem monitor_fold_places (s : EngineState) (ids : List Nat) (mids : Nat → ℚ)
    (resp : Nat → Option Nat) (hrun : s.running = true) :
    ∀ (pend : List (Nat × LiveOrder))
      (acc : List (Nat × LiveOrder) × Nat × List Placement) (k : Nat)
      (v : LiveOrder),
      (k, v) ∈ pend → k ∉ ids → v.status = .opened →
      zone_enabled s v.level_index = true →
      v.level_index < s.levels.length →
      (∀ c, determine_side (s.levels.getD v.level_index 0) (mids c) ≠ .skip) →
      (∀ c, (resp c).isSome = true) →
      ∃ pl ∈ (pend.foldl (monitor_step s ids mids resp) acc).2.2,
        pl.level_index = v.level_index := by
  intro pend
  induction pend with
  | nil =>
    intro acc k v hmem
    cases hmem
  | cons e rest ih =>
    intro acc k v hmem hk hv hz hi hside hresp
    rw [List.foldl_cons]
    rcases List.mem_cons.1 hmem with heq | hmem'
    · obtain rfl : e = (k, v) := heq.symm
      have hq : (k, v).1 ∉ ids ∧ (k, v).2.status = .opened := ⟨hk, hv⟩
      have hstep : monitor_step s ids mids resp acc (k, v)
          = ((replace_order s (markStatus acc.1 k .filled) v.level_index
              (mids acc.2.1) (resp acc.2.1)).1,
             acc.2.1 + 1,
             acc.2.2 ++ (replace_order s (markStatus acc.1 k .filled)
              v.level_index (mids acc.2.1) (resp acc.2.1)).2.toList) := by
        unfold monitor_step
        rw [if_pos hq]
      rw [hstep]
      obtain ⟨oid, hoid⟩ := Option.isSome_iff_exists.1 (hresp acc.2.1)
      have hpl : (replace_order s (markStatus acc.1 k .filled) v.level_index
          (mids acc.2.1) (resp acc.2.1)).2
          = some { level_index := v.level_index,
                   side := determine_side (s.levels.getD v.level_index 0)
                     (mids acc.2.1),
                   price := s.levels.getD v.level_index 0,
                   size := s.position_size } := by
        rw [hoid]
        exact replace_order_places hrun hz hi (hside acc.2.1)
      refine ⟨{ level_index := v.level_index,
                side := determine_side (s.levels.getD v.level_index 0)
                  (mids acc.2.1),
                price := s.levels.getD v.level_index 0,
                size := s.position_size }, ?_, rfl⟩
      apply monitor_fold_pls_mono
      show _ ∈ acc.2.2 ++ (replace_order s (markStatus acc.1 k .filled)
        v.level_index (mids acc.2.1) (resp acc.2.1)).2.toList
      rw [hpl]
      exact List.mem_append_right _ (List.mem_singleton_self _)
    · exact ih _ k v hmem' hk hv hz hi hside hresp

/-- C3 (amended): an open order at level `i` observed missing from a
non-empty open-orders snapshot is marked `filled` and its replacement
`place_limit` for level `i` is issued within the SAME tick (immediately
after the fill is detected), provided the engine is running, the level's
zone is enabled, the level exists, the polarity is not `skip`, and the
venue accepts the placement — not in tick `t+1` as the claim states. -/
theorem monitor_tick_same_tick_replacement :
    ∀ (s : EngineState) (oo : List ExOrder) (mids : Nat → ℚ)
      (resp : Nat → Option Nat) (k : Nat) (v : LiveOrder),
      (k, v) ∈ s.active_orders →
      v.status = .opened →
      k ∉ oo.map (·.id) →
      oo ≠ [] →
      s.running = true →
      zone_enabled s v.level_index = true →
      v.level_index < s.levels.length →
      (∀ c, determine_side (s.levels.getD v.level_index 0) (mids c) ≠ .skip) →
      (∀ c, (resp c).isSome = true) →
      ∃ pl ∈ (monitor_tick s oo mids resp).2, pl.level_index = v.level_index := by
  intro s oo mids resp k v hmem hv hk hoo hrun hz hi hside hresp
  have hneg : ¬(oo.length = 0 ∧ 0 < s.active_orders.length) := by
    rintro ⟨h0, _⟩
    exact hoo (List.length_eq_zero.1 h0)
  unfold monitor_tick
  rw [if_neg hneg, if_pos (List.length_pos.2 hoo)]
  exact monitor_fold_places s (oo.map (·.id)) mids resp hrun s.active_orders
    (s.active_orders, 0, []) k v hmem hk hv hz hi hside hresp

theorem determine_side_100_150_buy : determine_side (100 : ℚ) 150 = .buy := by
  unfold determine_side
  norm_num

/-- C3 witness: the amended same-tick replacement on a concrete engine
with one tracked open order at level 0 missing from the snapshot. -/
theorem monitor_tick_same_tick_replacement_witness :
    ∃ pl ∈ (monitor_tick
        { levels := [100, 200], zone_map := [],
          active_orders := [(1, ⟨0, 0, .buy, 100, 1, .opened⟩)], running := true,
          exchange := "okx", symbol := "BTC/USDT", position_size := 1 }
        [⟨2, .sell, 175, 1⟩] (fun _ => 150) (fun _ => some 5)).2,
      pl.level_index = 0 :=
  monitor_tick_same_tick_replacement _ _ _ _ 1 ⟨0, 0, .buy, 100, 1, .opened⟩
    (by decide) rfl (by decide) (by decide) rfl (by decide) (by decide)
    (fun c => by
      show determine_side (100 : ℚ) 150 ≠ OrderSide.skip
      rw [determine_side_100_150_buy]
      decide)
    (fun c => rfl)

/-- C3 counterexample: the claim "the replacement is issued in tick t+1,
never within tick t itself" is false — in the very tick that observes the
order missing, the engine issues the replacement placement for level 0. -/
theorem same_tick_replacement_eval :
    (monitor_tick
        { levels := [100, 200], zone_map := [],
          active_orders := [(1, ⟨0, 0, .buy, 100, 1, .opened⟩)], running := true,
          exchange := "okx", symbol := "BTC/USDT", position_size := 1 }
        [⟨2, .sell, 175, 1⟩] (fun _ => 150) (fun _ => some 5)).2
      = [⟨0, .buy, 100, 1⟩] := by
  norm_num [monitor_tick, monitor_step, replace_order, markStatus, setOrder,
    determine_side, zone_enabled, zone_id_of, List.lookup]

end InvestorStack

